import Mathlib

/-!
Shallow embedding of the grading core of the `rubric` crate
(criteria, rubric, submission grading, CSV codec, results file),
with theorems checking the natural-language specification against it.

Modelling conventions:
* Rust `isize`/`i64` values are modelled as `Int`; the one place where the
  source casts a signed value into `usize` (`Rubric::points`) models the cast
  and the wrap-around addition explicitly modulo `2 ^ 64`.
* `chrono` timestamps are modelled as `Int` seconds; the current instant
  `Local::now()` is passed explicitly as a `now : Int` parameter.
* `HashMap<String, String>` (`TestData`) is modelled as an association list
  whose element order stands for the (arbitrary) map iteration order; the
  map invariant is that keys are distinct.
* Rust compares `String`s by their UTF-8 bytes; byte-lexicographic order on
  UTF-8 coincides with code-point-lexicographic order, which `rustLeChars`
  implements over `String.toList`.
* `Vec::sort_by` is a stable sort; it is modelled by `List.insertionSort`,
  which is stable and sorts by the same comparator.
* A Rust panic (`Option::unwrap` on `None`) is modelled by returning `none`
  from an `Option`-valued translation of the function.
-/

/-- TestData models the crate's type alias HashMap of String to String;
the list order stands for the map's iteration order. -/
abbrev TestData := List (String × String)

/-- Byte-lexicographic comparison of UTF-8 strings, as performed by Rust's
Ord for String, expressed on code points (UTF-8 byte order and code-point
order coincide). -/
def rustLeChars : List Char → List Char → Bool
  | [], _ => true
  | _ :: _, [] => false
  | a :: as, b :: bs => if a < b then true else if a = b then rustLeChars as bs else false

/-- Models Rust string comparison x.cmp(y) being Less or Equal. -/
def rustStrLe (a b : String) : Bool := rustLeChars a.toList b.toList

/-- The comparator used in the source's v.sort_by on key-value pairs:
compare the keys (field 0). -/
def keyLe (p q : String × String) : Prop := rustStrLe p.1 q.1 = true

instance : DecidableRel keyLe := fun p q => inferInstanceAs (Decidable (rustStrLe p.1 q.1 = true))

/-- Criterion, from src/rubric/criterion.rs. The boxed test closure is a
Lean function field; the tri-state status is Option Bool exactly as in the
source. -/
structure Criterion where
  func : String
  name : String
  worth : Int
  index : Int
  messages : String × String
  desc : Option String
  test : TestData → Bool
  status : Option Bool
  hide : Bool

/-- CriterionBuilder, from src/rubric/criterion_builder.rs. -/
structure CriterionBuilder where
  name : String
  func : Option String
  worth : Int
  messages : String × String
  desc : Option String
  test : Option (TestData → Bool)
  index : Int
  hide : Bool

/-- CriterionBuilder::new: trims the name and installs the documented
defaults (worth 0, messages passed/failed, index 100, hide false). -/
def CriterionBuilder.new (name : String) : CriterionBuilder :=
  { name := name.trim
    func := none
    worth := 0
    messages := ("passed", "failed")
    desc := none
    test := none
    index := 100
    hide := false }

/-- CriterionBuilder::build: derives the default func key (lowercase the
name, join whitespace-separated words with underscores) when none was set,
and installs the default always-false test when none was attached. -/
def CriterionBuilder.build (b : CriterionBuilder) : Criterion :=
  { func := b.func.getD
      (String.intercalate "_" ((b.name.toLower.split (fun c => c.isWhitespace)).filter (fun w => w ≠ "")))
    name := b.name
    worth := b.worth
    messages := b.messages
    desc := b.desc
    test := b.test.getD (fun _ => false)
    index := b.index
    status := none
    hide := b.hide }

/-- Criterion::test_with_data: runs the test, stores Some(result) as the
status and returns the result. The source's immediate self.status.unwrap()
is modelled faithfully in Criterion.test_with_data_opt below. -/
def Criterion.test_with_data (c : Criterion) (data : TestData) : Bool × Criterion :=
  (c.test data, { c with status := some (c.test data) })

/-- Criterion::test_with_data with the source's unwrap modelled explicitly:
the status just assigned is unwrapped, and an unwrap of None would panic
(modelled as none). -/
def Criterion.test_with_data_opt (c : Criterion) (data : TestData) : Option (Bool × Criterion) :=
  let c' : Criterion := { c with status := some (c.test data) }
  match c'.status with
  | some b => some (b, c')
  | none => none

/-- Rubric, from src/rubric/mod.rs. The fields final_deadline and
daily_penalty are read by Submission::grade_against in
src/dropbox/submission.rs but their declaration is not part of the sources
under src/; they are modelled from the spec (optional hard final deadline;
optional per-day-late penalty, a plain integer like late_penalty).
Deadlines are timestamps in seconds. -/
structure Rubric where
  name : String
  desc : Option String
  criteria : List Criterion
  total : Int
  deadline : Option Int
  final_deadline : Option Int
  allow_late : Bool
  late_penalty : Int
  daily_penalty : Int

/-- The comparator of Rubric::sorted: compare criteria by index. -/
def idxLe (a b : Criterion) : Prop := a.index ≤ b.index

instance : DecidableRel idxLe := fun a b => inferInstanceAs (Decidable (a.index ≤ b.index))

/-- Rubric::sorted: sort_by on the index; Rust's sort_by is a stable sort,
modelled by the (stable) insertion sort. -/
def Rubric.sorted (r : Rubric) : List Criterion := r.criteria.insertionSort idxLe

/-- The loop body of Rubric::points: when the status is Some(true), add
the worth, cast into usize, to the usize accumulator. The as-cast of the
signed worth and the wrapping usize addition are modelled as arithmetic
modulo 2 ^ 64. -/
def pointsStep (total : Nat) (c : Criterion) : Nat :=
  match c.status with
  | some st => if st then (total + ((c.worth % ((2 : Int) ^ 64)).toNat)) % 2 ^ 64 else total
  | none => total

/-- Rubric::points, from src/rubric/mod.rs: sums the worth of criteria with
status Some(true) into a usize accumulator. -/
def Rubric.points (r : Rubric) : Nat :=
  r.criteria.foldl pointsStep 0

/-- Rubric::total_points: sums every criterion's worth regardless of
status. -/
def Rubric.total_points (r : Rubric) : Int :=
  r.criteria.foldl (fun total c => total + c.worth) 0

/-- Rubric::past_due: a configured deadline strictly earlier than now;
absent deadline is never past due. -/
def Rubric.past_due (r : Rubric) (now : Int) : Bool :=
  match r.deadline with
  | some d => d < now
  | none => false

/-- Modelled from the spec: Rubric::past_final_deadline is called by
src/dropbox/submission.rs but is not among the sources under src/. Per
the spec it compares a configured final deadline timestamp (if present)
to now, and an absent deadline is never past due, exactly like past_due. -/
def Rubric.past_final_deadline (r : Rubric) (now : Int) : Bool :=
  match r.final_deadline with
  | some d => d < now
  | none => false

/-- Fingerprint, from src/dropbox/fingerprint.rs: a secret plus a detected
platform name. -/
structure Fingerprint where
  secret : String
  platform : String

/-- Submission, from src/dropbox/submission.rs. The chrono timestamp only
ever reaches the observable output through time.format(timestamp_format),
so the formatted text is modelled directly as the opaque field timeStr. -/
structure Submission where
  timeStr : String
  grade : Int
  data : TestData
  late : Bool
  passed : List String
  failed : List String
  fingerprint : Option Fingerprint

/-- Submission::addition: adds to the grade and appends a passed-trail
entry of the shape message (+amount). -/
def Submission.addition (s : Submission) (to_add : Int) (message : String) : Submission :=
  { s with
    grade := s.grade + to_add
    passed := s.passed ++ [message ++ " (+" ++ toString to_add ++ ")"] }

/-- Submission::penalty: subtracts from the grade and appends a
failed-trail entry of the shape message (-amount). -/
def Submission.penalty (s : Submission) (to_penalize : Int) (message : String) : Submission :=
  { s with
    grade := s.grade - to_penalize
    failed := s.failed ++ [message ++ " (-" ++ toString to_penalize ++ ")"] }

/-- The whole-days-late count of Submission::grade_against:
deadline.signed_duration_since(now).num_days().abs() + 1, where num_days
truncates toward zero (chrono), i.e. Int.tdiv of the second difference by
86400. -/
def daysLate (d now : Int) : Int := (((d - now).tdiv 86400).natAbs : Int) + 1

/-- The criterion-evaluation loop of Submission::grade_against: visit each
criterion, run test_with_data on the submission's data, and on pass add the
worth with the name as message, on fail apply a zero penalty with the name
as message. Returns the final submission and the criteria with their
statuses written back. -/
def gradeLoop : Submission → List Criterion → Submission × List Criterion
  | s, [] => (s, [])
  | s, c :: rest =>
    let t := c.test_with_data s.data
    let s' := if t.1 then s.addition c.worth c.name else s.penalty 0 c.name
    let res := gradeLoop s' rest
    (res.1, t.2 :: res.2)

/-- Submission::grade_against, from src/dropbox/submission.rs: final
deadline short-circuit, then lateness penalties (flat, then per-day) with
an early return when late submission is disallowed, then the criterion
loop over the index-sorted criteria. -/
def Submission.grade_against (s : Submission) (r : Rubric) (now : Int) : Submission × Rubric :=
  if r.past_final_deadline now then
    (s.penalty s.grade "Past final deadline", r)
  else if r.past_due now then
    let s1 := { s with late := true }
    let s2 := s1.penalty r.late_penalty "Late submission"
    let how_late := daysLate (r.deadline.getD 0) now
    let s3 := s2.penalty (r.daily_penalty * how_late) (toString how_late ++ " days late")
    if !r.allow_late then
      (s3.penalty s3.grade "Past deadline", r)
    else
      let p := gradeLoop s3 r.sorted
      (p.1, { r with criteria := p.2 })
  else
    let p := gradeLoop s r.sorted
    (p.1, { r with criteria := p.2 })

/-- The value transformation of Rust's str::replace of a comma by a
semicolon (a single-character pattern, hence a character map). -/
def replaceCommas (s : String) : String :=
  String.mk (s.toList.map (fun c => if c = ',' then ';' else c))

/-- TestData::as_csv: collect the map entries, sort by key, replace commas
in the values by semicolons, join with commas. -/
def TestData.as_csv (d : TestData) : String :=
  String.intercalate "," ((d.insertionSort keyLe).map (fun p => replaceCommas p.2))

/-- TestData::header: the keys, sorted, joined with commas. -/
def TestData.header (d : TestData) : String :=
  String.intercalate "," ((d.insertionSort keyLe).map (fun p => p.1))

/-- Fingerprint::as_csv. -/
def Fingerprint.as_csv (f : Fingerprint) : String := f.secret ++ "," ++ f.platform

/-- Fingerprint::header. -/
def Fingerprint.header (_f : Fingerprint) : String := "secret,platform"

/-- Submission::as_csv: formatted time, late flag, grade, the two trails
joined with semicolons, the data map's csv, then the fingerprint fields if
present. -/
def Submission.as_csv (s : Submission) : String :=
  let csv := s.timeStr ++ "," ++ toString s.late ++ "," ++ toString s.grade ++ ","
    ++ String.intercalate ";" s.passed ++ "," ++ String.intercalate ";" s.failed ++ ","
    ++ TestData.as_csv s.data
  match s.fingerprint with
  | some fp => csv ++ "," ++ fp.as_csv
  | none => csv

/-- Submission::header: the column names mirroring as_csv. -/
def Submission.header (s : Submission) : String :=
  let h := "time,late,grade,passed,failed," ++ TestData.header s.data
  match s.fingerprint with
  | some fp => h ++ "," ++ fp.header
  | none => h

/-- The results file on disk, modelled by the list of records appended so
far; ResultsFile::append writes the record plus a newline. -/
structure FileState where
  records : List String

/-- The byte length of the file: each appended record contributed its UTF-8
bytes plus one newline byte. -/
def FileState.lengthBytes (f : FileState) : Nat :=
  (f.records.map (fun r => r.utf8ByteSize + 1)).sum

/-- ResultsFile::append. -/
def FileState.append (f : FileState) (record : String) : FileState :=
  ⟨f.records ++ [record]⟩

/-- ResultsFile::new, from src/results_file.rs: open (create) the file and
append the header if and only if the file length is 0 at open time. -/
def ResultsFile.new (f : FileState) (header : String) : FileState :=
  if f.lengthBytes = 0 then f.append header else f

/-- The accept path of the collection endpoint (accept_submission in
src/dropbox/mod.rs), under the results-file lock: write the header when
the file is empty, then append the submission's CSV line. -/
def accept_submission (f : FileState) (sub : Submission) : FileState :=
  let f' := if f.lengthBytes = 0 then f.append sub.header else f
  f'.append sub.as_csv

/-- The flat (earlier) variant of the library, from src/submission.rs: its
Submission tracks the same data with an i16 grade and plain pass/fail
entries. The criterion and rubric shapes are shared with the main model. -/
structure FlatSubmission where
  timeStr : String
  grade : Int
  data : TestData
  passed : List String
  failed : List String
  late : Bool

/-- Submission::pass of the flat variant. -/
def FlatSubmission.pass (s : FlatSubmission) (criterion : String) : FlatSubmission :=
  { s with passed := s.passed ++ [criterion] }

/-- Submission::fail of the flat variant. -/
def FlatSubmission.fail (s : FlatSubmission) (criterion : String) : FlatSubmission :=
  { s with failed := s.failed ++ [criterion] }

/-- The criterion loop of the flat Submission::grade_against: run
test_with_data (whose internal unwrap is modelled), then unwrap
crit.status again to branch; an unwrap of None is modelled as none. -/
def flatGradeLoop : FlatSubmission → List Criterion → Option (FlatSubmission × List Criterion)
  | s, [] => some (s, [])
  | s, c :: rest =>
    match c.test_with_data_opt s.data with
    | none => none
    | some (_, c') =>
      match c'.status with
      | none => none
      | some st =>
        let s' :=
          if st then
            { s with grade := s.grade + c.worth }.pass (c.name ++ ": " ++ c.messages.1)
          else
            s.fail (c.name ++ ": " ++ c.messages.2)
        match flatGradeLoop s' rest with
        | none => none
        | some (sF, csF) => some (sF, c' :: csF)

/-- Submission::grade_against of the flat variant (src/submission.rs):
when past due, mark late, subtract the flat penalty, record the entry,
and if late submission is disallowed set the grade to 0 and return
without grading; otherwise run the criterion loop over the sorted
criteria. -/
def FlatSubmission.grade_against (s : FlatSubmission) (r : Rubric) (now : Int) :
    Option (FlatSubmission × Rubric) :=
  if r.past_due now then
    let s1 := { s with late := true }
    let s2 := { s1 with grade := s1.grade - r.late_penalty }
    let s3 := s2.fail ("Late submission (-" ++ toString r.late_penalty ++ ")")
    if !r.allow_late then
      some ({ s3 with grade := 0 }, r)
    else
      match flatGradeLoop s3 r.sorted with
      | none => none
      | some p => some (p.1, { r with criteria := p.2 })
  else
    match flatGradeLoop s r.sorted with
    | none => none
    | some p => some (p.1, { r with criteria := p.2 })

/-! Specification-side helper functions, used only to state properties of
the model. -/

/-- The passed-trail entries the criterion loop produces for a criteria
list: one entry name (+worth) per criterion whose test passes on the
data. -/
def passEntries (data : TestData) (l : List Criterion) : List String :=
  (l.filter (fun c => c.test data)).map (fun c => c.name ++ " (+" ++ toString c.worth ++ ")")

/-- The failed-trail entries the criterion loop produces: one entry
name (-0) per criterion whose test fails on the data. -/
def failEntries (data : TestData) (l : List Criterion) : List String :=
  (l.filter (fun c => !c.test data)).map (fun c => c.name ++ " (-" ++ toString (0 : Int) ++ ")")

/-- The total worth of the criteria whose test passes on the data. -/
def passWorth (data : TestData) (l : List Criterion) : Int :=
  ((l.filter (fun c => c.test data)).map (fun c => c.worth)).sum

/-- The sum, as stated by the spec, of the worth of the criteria whose
status is Passed; Rubric.points is compared against it. -/
def specPassedWorthSum (r : Rubric) : Int :=
  ((r.criteria.filter (fun c => c.status = some true)).map (fun c => c.worth)).sum

/-! Concrete example values, used by the closed witness and counterexample
theorems. -/

/-- A criterion worth 10 points at index 0 whose test passes exactly when
the data maps the key "key" to "value". -/
def exCritA : Criterion :=
  { func := "a"
    name := "A"
    worth := 10
    index := 0
    messages := ("passed", "failed")
    desc := none
    test := fun d => d.lookup "key" == some "value"
    status := none
    hide := false }

/-- A criterion worth 15 points at index 1 whose test passes exactly when
the data maps the key "other" to "x". -/
def exCritB : Criterion :=
  { exCritA with
    func := "b"
    name := "B"
    worth := 15
    index := 1
    test := fun d => d.lookup "other" == some "x" }

/-- A fresh submission whose data satisfies exCritA but not exCritB. -/
def exSub : Submission :=
  { timeStr := "2020-05-01 Fri 22:23:21 +00:00"
    grade := 0
    data := [("key", "value")]
    late := false
    passed := []
    failed := []
    fingerprint := none }

/-- A rubric with the two example criteria and no deadlines. -/
def exRubric : Rubric :=
  { name := "Test Rubric"
    desc := none
    criteria := [exCritA, exCritB]
    total := 25
    deadline := none
    final_deadline := none
    allow_late := true
    late_penalty := 0
    daily_penalty := 0 }

/-- A fresh flat-variant submission with empty data. -/
def exFlatSub : FlatSubmission :=
  { timeStr := "2020-05-01 Fri 22:23:21 +00:00"
    grade := 0
    data := []
    late := false
    passed := []
    failed := [] }

/-- A rubric with a single criterion of negative worth whose test passes
on exSub's data. -/
def exNegRubric : Rubric :=
  { exRubric with criteria := [{ exCritA with worth := -5 }] }

/-- A rubric whose single criterion was built without ever attaching a
test. -/
def exUnattachedRubric : Rubric :=
  { exRubric with criteria := [(CriterionBuilder.new "My Crit").build] }

/-! Order properties of the Rust string comparison. -/

theorem rustLeChars_total (x y : List Char) : rustLeChars x y = true ∨ rustLeChars y x = true := by
  induction x generalizing y with
  | nil => left; rfl
  | cons a as ih =>
    cases y with
    | nil => right; rfl
    | cons b bs =>
      rcases lt_trichotomy a b with h | h | h
      · left; simp [rustLeChars, h]
      · subst h
        rcases ih bs with h' | h'
        · left; simp [rustLeChars, h']
        · right; simp [rustLeChars, h']
      · right; simp [rustLeChars, h]

theorem rustLeChars_trans (x y z : List Char) (hxy : rustLeChars x y = true)
    (hyz : rustLeChars y z = true) : rustLeChars x z = true := by
  induction x generalizing y z with
  | nil => rfl
  | cons a as ih =>
    cases y with
    | nil => simp [rustLeChars] at hxy
    | cons b bs =>
      cases z with
      | nil => simp [rustLeChars] at hyz
      | cons c cs =>
        simp only [rustLeChars] at hxy hyz ⊢
        rcases lt_trichotomy a b with hab | hab | hab
        · rcases lt_trichotomy b c with hbc | hbc | hbc
          · simp [lt_trans hab hbc]
          · subst hbc; simp [hab]
          · rw [if_neg (asymm hbc), if_neg (ne_of_gt hbc)] at hyz
            simp at hyz
        · subst hab
          rw [if_neg (lt_irrefl a), if_pos rfl] at hxy
          rcases lt_trichotomy a c with hac | hac | hac
          · simp [hac]
          · subst hac
            rw [if_neg (lt_irrefl a), if_pos rfl] at hyz ⊢
            exact ih bs cs hxy hyz
          · rw [if_neg (asymm hac), if_neg (ne_of_gt hac)] at hyz
            simp at hyz
        · rw [if_neg (asymm hab), if_neg (ne_of_gt hab)] at hxy
          simp at hxy

theorem rustLeChars_antisymm (x y : List Char) (hxy : rustLeChars x y = true)
    (hyx : rustLeChars y x = true) : x = y := by
  induction x generalizing y with
  | nil =>
    cases y with
    | nil => rfl
    | cons b bs => simp [rustLeChars] at hyx
  | cons a as ih =>
    cases y with
    | nil => simp [rustLeChars] at hxy
    | cons b bs =>
      simp only [rustLeChars] at hxy hyx
      rcases lt_trichotomy a b with hab | hab | hab
      · rw [if_neg (asymm hab), if_neg (ne_of_gt hab)] at hyx
        simp at hyx
      · subst hab
        rw [if_neg (lt_irrefl a), if_pos rfl] at hxy hyx
        rw [ih bs hxy hyx]
      · rw [if_neg (asymm hab), if_neg (ne_of_gt hab)] at hxy
        simp at hxy

theorem rustStrLe_antisymm (a b : String) (hab : rustStrLe a b = true)
    (hba : rustStrLe b a = true) : a = b := by
  have h := rustLeChars_antisymm a.toList b.toList hab hba
  cases a with
  | mk da =>
    cases b with
    | mk db => exact congrArg String.mk (by simpa using h)

instance : IsTotal (String × String) keyLe :=
  ⟨fun p q => rustLeChars_total p.1.toList q.1.toList⟩

instance : IsTrans (String × String) keyLe :=
  ⟨fun p q u hpq hqu => rustLeChars_trans p.1.toList q.1.toList u.1.toList hpq hqu⟩

/-- The strict companion of keyLe used to identify sorted lists with
distinct keys. -/
def keyLt (p q : String × String) : Prop := keyLe p q ∧ p.1 ≠ q.1

instance : IsAntisymm (String × String) keyLt :=
  ⟨fun p q hpq hqp => absurd (rustStrLe_antisymm p.1 q.1 hpq.1 hqp.1) hpq.2⟩

theorem sortByKey_eq_of_perm {l₁ l₂ : TestData} (hp : l₁.Perm l₂)
    (hn : (l₁.map Prod.fst).Nodup) :
    l₁.insertionSort keyLe = l₂.insertionSort keyLe := by
  have hs₁ : (l₁.insertionSort keyLe).Sorted keyLe := List.sorted_insertionSort keyLe l₁
  have hs₂ : (l₂.insertionSort keyLe).Sorted keyLe := List.sorted_insertionSort keyLe l₂
  have hperm : (l₁.insertionSort keyLe).Perm (l₂.insertionSort keyLe) :=
    ((List.perm_insertionSort keyLe l₁).trans hp).trans (List.perm_insertionSort keyLe l₂).symm
  have hn₁ : ((l₁.insertionSort keyLe).map Prod.fst).Nodup :=
    (((List.perm_insertionSort keyLe l₁).map Prod.fst).nodup_iff).mpr hn
  have hn₂ : ((l₂.insertionSort keyLe).map Prod.fst).Nodup :=
    ((hperm.map Prod.fst).nodup_iff).mp hn₁
  have hne₁ : (l₁.insertionSort keyLe).Pairwise (fun p q => p.1 ≠ q.1) :=
    List.pairwise_map.mp hn₁
  have hne₂ : (l₂.insertionSort keyLe).Pairwise (fun p q => p.1 ≠ q.1) :=
    List.pairwise_map.mp hn₂
  have hlt₁ : (l₁.insertionSort keyLe).Sorted keyLt := hs₁.and hne₁
  have hlt₂ : (l₂.insertionSort keyLe).Sorted keyLt := hs₂.and hne₂
  exact List.eq_of_perm_of_sorted hperm hlt₁ hlt₂

/-! Decomposition of the criterion-evaluation loop. -/

theorem gradeLoop_data (l : List Criterion) : ∀ s : Submission, (gradeLoop s l).1.data = s.data := by
  induction l with
  | nil => intro s; rfl
  | cons c rest ih =>
    intro s
    by_cases h : c.test s.data = true <;>
      simp [gradeLoop, Criterion.test_with_data, h, ih, Submission.addition, Submission.penalty]

theorem gradeLoop_late (l : List Criterion) : ∀ s : Submission, (gradeLoop s l).1.late = s.late := by
  induction l with
  | nil => intro s; rfl
  | cons c rest ih =>
    intro s
    by_cases h : c.test s.data = true <;>
      simp [gradeLoop, Criterion.test_with_data, h, ih, Submission.addition, Submission.penalty]

theorem gradeLoop_grade (l : List Criterion) :
    ∀ s : Submission, (gradeLoop s l).1.grade = s.grade + passWorth s.data l := by
  induction l with
  | nil => intro s; simp [gradeLoop, passWorth]
  | cons c rest ih =>
    intro s
    by_cases h : c.test s.data = true <;>
      simp [gradeLoop, Criterion.test_with_data, h, ih, Submission.addition, Submission.penalty,
        passWorth, List.filter_cons] <;>
      ring

theorem gradeLoop_passed (l : List Criterion) :
    ∀ s : Submission, (gradeLoop s l).1.passed = s.passed ++ passEntries s.data l := by
  induction l with
  | nil => intro s; simp [gradeLoop, passEntries]
  | cons c rest ih =>
    intro s
    by_cases h : c.test s.data = true <;>
      simp [gradeLoop, Criterion.test_with_data, h, ih, Submission.addition, Submission.penalty,
        passEntries, List.filter_cons]

theorem gradeLoop_failed (l : List Criterion) :
    ∀ s : Submission, (gradeLoop s l).1.failed = s.failed ++ failEntries s.data l := by
  induction l with
  | nil => intro s; simp [gradeLoop, failEntries]
  | cons c rest ih =>
    intro s
    by_cases h : c.test s.data = true <;>
      simp [gradeLoop, Criterion.test_with_data, h, ih, Submission.addition, Submission.penalty,
        failEntries, List.filter_cons]

theorem gradeLoop_snd (l : List Criterion) :
    ∀ s : Submission,
      (gradeLoop s l).2 = l.map (fun c => { c with status := some (c.test s.data) }) := by
  induction l with
  | nil => intro s; rfl
  | cons c rest ih =>
    intro s
    by_cases h : c.test s.data = true <;>
      simp [gradeLoop, Criterion.test_with_data, h, ih, Submission.addition, Submission.penalty]

/-! Sortedness and stability of Rubric::sorted. -/

instance : IsTotal Criterion idxLe := ⟨fun a b => le_total a.index b.index⟩

instance : IsTrans Criterion idxLe := ⟨fun _ _ _ hab hbc => le_trans hab hbc⟩

theorem orderedInsert_filter_index (a : Criterion) (l : List Criterion) (i : Int) :
    (List.orderedInsert idxLe a l).filter (fun c => c.index = i) =
      if a.index = i then a :: l.filter (fun c => c.index = i)
      else l.filter (fun c => c.index = i) := by
  rw [List.orderedInsert_eq_take_drop, List.filter_append]
  have hsplit : l.filter (fun c => c.index = i) =
      (l.takeWhile (fun b => decide ¬ idxLe a b)).filter (fun c => c.index = i)
        ++ (l.dropWhile (fun b => decide ¬ idxLe a b)).filter (fun c => c.index = i) := by
    rw [← List.filter_append, List.takeWhile_append_dropWhile]
  by_cases h : a.index = i
  · have htake : (l.takeWhile (fun b => decide ¬ idxLe a b)).filter (fun c => c.index = i) = [] := by
      rw [List.filter_eq_nil_iff]
      intro b hb
      have hq := List.mem_takeWhile_imp hb
      simp only [decide_eq_true_eq, idxLe, not_le] at hq
      simp only [decide_eq_true_eq]
      omega
    rw [if_pos h, hsplit, htake, List.filter_cons, if_pos (by simpa using h)]
    simp
  · rw [if_neg h, hsplit, List.filter_cons, if_neg (by simpa using h)]

theorem sorted_filter_index (l : List Criterion) (i : Int) :
    (l.insertionSort idxLe).filter (fun c => c.index = i) = l.filter (fun c => c.index = i) := by
  induction l with
  | nil => rfl
  | cons c rest ih =>
    simp only [List.insertionSort]
    rw [orderedInsert_filter_index, ih, List.filter_cons]
    by_cases h : c.index = i
    · rw [if_pos h, if_pos (by simpa using h)]
    · rw [if_neg h, if_neg (by simpa using h)]

/-! Arithmetic of Rubric::points. -/

theorem pointsStep_fold (l : List Criterion) :
    ∀ acc : Nat, acc < 2 ^ 64 →
      ((l.foldl pointsStep acc : Nat) : Int) =
        ((acc : Int) + ((l.filter (fun c => c.status = some true)).map (fun c => c.worth)).sum)
          % (2 : Int) ^ 64 := by
  induction l with
  | nil =>
    intro acc hacc
    simp only [List.foldl_nil, List.filter_nil, List.map_nil, List.sum_nil, add_zero]
    rw [Int.emod_eq_of_lt (by positivity) (by exact_mod_cast hacc)]
  | cons c rest ih =>
    intro acc hacc
    rcases hc : c.status with _ | st
    · rw [List.foldl_cons]
      rw [show pointsStep acc c = acc from by simp [pointsStep, hc]]
      rw [List.filter_cons, if_neg (by simp [hc])]
      exact ih acc hacc
    · cases st with
      | false =>
        rw [List.foldl_cons]
        rw [show pointsStep acc c = acc from by simp [pointsStep, hc]]
        rw [List.filter_cons, if_neg (by simp [hc])]
        exact ih acc hacc
      | true =>
        rw [List.foldl_cons]
        have hstep : pointsStep acc c = (acc + ((c.worth % ((2 : Int) ^ 64)).toNat)) % 2 ^ 64 := by
          simp [pointsStep, hc]
        rw [hstep]
        have hlt : (acc + ((c.worth % ((2 : Int) ^ 64)).toNat)) % 2 ^ 64 < 2 ^ 64 :=
          Nat.mod_lt _ (by positivity)
        rw [ih _ hlt]
        rw [List.filter_cons, if_pos (by simp [hc])]
        simp only [List.map_cons, List.sum_cons]
        have hw : (((c.worth % ((18446744073709551616 : Int))).toNat : Nat) : Int)
            = c.worth % (18446744073709551616 : Int) :=
          Int.toNat_of_nonneg (Int.emod_nonneg c.worth (by norm_num))
        push_cast
        rw [hw]
        omega

theorem foldl_add_worth (l : List Criterion) :
    ∀ acc : Int, l.foldl (fun total c => total + c.worth) acc = acc + (l.map (fun c => c.worth)).sum := by
  induction l with
  | nil => intro acc; simp
  | cons c rest ih =>
    intro acc
    rw [List.foldl_cons, ih]
    simp only [List.map_cons, List.sum_cons]
    ring

/-! The results file. -/

theorem lengthBytes_eq_zero_iff (f : FileState) : f.lengthBytes = 0 ↔ f.records = [] := by
  cases f with
  | mk rs =>
    cases rs with
    | nil => simp [FileState.lengthBytes]
    | cons r rest =>
      simp only [FileState.lengthBytes, List.map_cons, List.sum_cons]
      constructor
      · intro h; omega
      · intro h; exact absurd h (by simp)

theorem accept_submission_of_nonempty (f : FileState) (sub : Submission) (h : f.records ≠ []) :
    (accept_submission f sub).records = f.records ++ [Submission.as_csv sub] := by
  have hlen : f.lengthBytes ≠ 0 := fun hz => h ((lengthBytes_eq_zero_iff f).mp hz)
  simp [accept_submission, FileState.append, if_neg hlen]

theorem foldl_accept_of_nonempty (subs : List Submission) :
    ∀ f : FileState, f.records ≠ [] →
      (subs.foldl accept_submission f).records = f.records ++ subs.map Submission.as_csv := by
  induction subs with
  | nil => intro f _; simp
  | cons sub rest ih =>
    intro f hf
    rw [List.foldl_cons]
    have h1 : (accept_submission f sub).records = f.records ++ [Submission.as_csv sub] :=
      accept_submission_of_nonempty f sub hf
    have h2 : (accept_submission f sub).records ≠ [] := by
      rw [h1]; simp
    rw [ih _ h2, h1]
    simp

/-! The flat grading loop never reaches an unwrap of None. -/

theorem flatGradeLoop_isSome (l : List Criterion) :
    ∀ s : FlatSubmission, (flatGradeLoop s l).isSome = true := by
  induction l with
  | nil => intro s; rfl
  | cons c rest ih =>
    intro s
    by_cases h : c.test s.data = true
    · simp only [flatGradeLoop, Criterion.test_with_data_opt, h, if_true]
      rcases hfl : flatGradeLoop
          (FlatSubmission.pass { s with grade := s.grade + c.worth } (c.name ++ ": " ++ c.messages.1))
          rest with _ | p
      · have hk := ih
          (FlatSubmission.pass { s with grade := s.grade + c.worth } (c.name ++ ": " ++ c.messages.1))
        rw [hfl] at hk
        exact absurd hk (by simp)
      · simp [hfl]
    · simp only [flatGradeLoop, Criterion.test_with_data_opt, h]
      rcases hfl : flatGradeLoop
          (FlatSubmission.fail s (c.name ++ ": " ++ c.messages.2)) rest with _ | p
      · have hk := ih (FlatSubmission.fail s (c.name ++ ": " ++ c.messages.2))
        rw [hfl] at hk
        exact absurd hk (by simp)
      · simp [hfl]

/-! Claim theorems. -/

/-- C2: for every submission graded against a rubric whose final deadline
is configured and has passed, grade_against sets the grade to exactly 0,
appends exactly one trail entry for the final deadline to the failed
trail, leaves the passed trail and the late flag untouched, and returns
the rubric unchanged, so no criterion's test is invoked and every
criterion's status stays what it was (Untested on a fresh rubric). -/
theorem c2_final_deadline_short_circuit (s : Submission) (r : Rubric) (now fd : Int)
    (hfd : r.final_deadline = some fd) (hpast : fd < now) :
    (Submission.grade_against s r now).1.grade = 0 ∧
    (Submission.grade_against s r now).1.failed =
      s.failed ++ ["Past final deadline (-" ++ toString s.grade ++ ")"] ∧
    (Submission.grade_against s r now).1.passed = s.passed ∧
    (Submission.grade_against s r now).1.late = s.late ∧
    (Submission.grade_against s r now).2 = r := by
  have h : r.past_final_deadline now = true := by
    simp [Rubric.past_final_deadline, hfd, hpast]
  simp [Submission.grade_against, h, Submission.penalty]

/-- Witness for C2: a concrete rubric with two criteria and final deadline
50, graded at time 100 with an incoming grade of 7. -/
theorem c2_witness :
    ({ exRubric with final_deadline := some 50 } : Rubric).final_deadline = some 50 ∧
    (50 : Int) < 100 ∧
    (Submission.grade_against { exSub with grade := 7 }
        { exRubric with final_deadline := some 50 } 100).1.grade = 0 ∧
    (Submission.grade_against { exSub with grade := 7 }
        { exRubric with final_deadline := some 50 } 100).1.failed =
      ({ exSub with grade := 7 } : Submission).failed ++ ["Past final deadline (-7)"] ∧
    (Submission.grade_against { exSub with grade := 7 }
        { exRubric with final_deadline := some 50 } 100).2 =
      { exRubric with final_deadline := some 50 } := by
  have h := c2_final_deadline_short_circuit { exSub with grade := 7 }
    { exRubric with final_deadline := some 50 } 100 50 rfl (by decide)
  exact ⟨rfl, by decide, h.1, h.2.1, h.2.2.2.2⟩

/-- C3: when the primary deadline has passed and the policy disallows
late submission (and the final deadline has not fired), grade_against
marks the submission late, records the late-penalty trail entries, then
zeroes the grade and returns without touching the rubric's criteria; the
flat-variant Submission::grade_against does the same with its single
flat-penalty entry. -/
theorem c3_late_disallowed (s : Submission) (r : Rubric) (now d : Int)
    (hfin : r.past_final_deadline now = false)
    (hd : r.deadline = some d) (hpast : d < now) (hlate : r.allow_late = false) :
    (Submission.grade_against s r now).1.grade = 0 ∧
    (Submission.grade_against s r now).1.late = true ∧
    (Submission.grade_against s r now).1.failed =
      s.failed ++
        ["Late submission (-" ++ toString r.late_penalty ++ ")",
         toString (daysLate d now) ++ " days late" ++ " (-"
           ++ toString (r.daily_penalty * daysLate d now) ++ ")",
         "Past deadline (-"
           ++ toString (s.grade - r.late_penalty - r.daily_penalty * daysLate d now) ++ ")"] ∧
    (Submission.grade_against s r now).1.passed = s.passed ∧
    (Submission.grade_against s r now).2 = r ∧
    (∀ fs : FlatSubmission,
      FlatSubmission.grade_against fs r now =
        some ({ fs with
                  late := true
                  grade := 0
                  failed := fs.failed ++ ["Late submission (-" ++ toString r.late_penalty ++ ")"] },
          r)) := by
  have hpd : r.past_due now = true := by
    simp [Rubric.past_due, hd, hpast]
  refine ⟨?_, ?_, ?_, ?_, ?_, ?_⟩
  · simp [Submission.grade_against, hfin, hpd, hlate, Submission.penalty]
  · simp [Submission.grade_against, hfin, hpd, hlate, Submission.penalty]
  · simp [Submission.grade_against, hfin, hpd, hlate, Submission.penalty, hd, sub_sub]
  · simp [Submission.grade_against, hfin, hpd, hlate, Submission.penalty]
  · simp [Submission.grade_against, hfin, hpd, hlate, Submission.penalty]
  · intro fs
    simp [FlatSubmission.grade_against, hpd, hlate, FlatSubmission.fail]

/-- Witness for C3: deadline 99 passed at time 100, late submission
disallowed, flat late penalty 5, per-day penalty 0. -/
theorem c3_witness :
    ({ exRubric with deadline := some 99, allow_late := false, late_penalty := 5 } : Rubric).allow_late
        = false ∧
    (Submission.grade_against exSub
        { exRubric with deadline := some 99, allow_late := false, late_penalty := 5 } 100).1.grade
        = 0 ∧
    (Submission.grade_against exSub
        { exRubric with deadline := some 99, allow_late := false, late_penalty := 5 } 100).1.late
        = true ∧
    (Submission.grade_against exSub
        { exRubric with deadline := some 99, allow_late := false, late_penalty := 5 } 100).2
        = { exRubric with deadline := some 99, allow_late := false, late_penalty := 5 } := by
  have h := c3_late_disallowed exSub
    { exRubric with deadline := some 99, allow_late := false, late_penalty := 5 } 100 99
    (by decide) rfl (by decide) rfl
  exact ⟨rfl, h.1, h.2.1, h.2.2.2.2.1⟩

/-- C4 counterexample: with a per-day penalty of 0 (not configured) and a
deadline one second in the past, grade_against still records the per-day
trail entry "1 days late (-0)", contradicting the claim that this entry is
recorded only when a per-day penalty is configured. -/
theorem c4_counterexample :
    ({ exRubric with deadline := some 99, late_penalty := 5 } : Rubric).daily_penalty = 0 ∧
    "1 days late (-0)" ∈
      (Submission.grade_against exSub
        { exRubric with deadline := some 99, late_penalty := 5 } 100).1.failed := by
  constructor
  · rfl
  · decide

/-- C4 (amended): when the submission is late (deadline passed, final
deadline not fired, late submission allowed), grade_against computes
days_late as the truncated whole-day count of the lateness plus one,
subtracts per_day_penalty times days_late, and always records the per-day
trail entry stating the day count, whether or not a per-day penalty is
configured. A deadline 1 second in the past gives days_late 1, a deadline
exactly 25 hours in the past gives days_late 2, and for any past deadline
days_late equals floor of the lateness in days plus 1. -/
theorem c4_daily_penalty (s : Submission) (r : Rubric) (now d : Int)
    (hfin : r.past_final_deadline now = false)
    (hd : r.deadline = some d) (hpast : d < now) (hlate : r.allow_late = true) :
    ((Submission.grade_against s r now).1.grade =
      s.grade - r.late_penalty - r.daily_penalty * daysLate d now + passWorth s.data r.sorted ∧
    (Submission.grade_against s r now).1.failed =
      s.failed ++
        ["Late submission (-" ++ toString r.late_penalty ++ ")",
         toString (daysLate d now) ++ " days late" ++ " (-"
           ++ toString (r.daily_penalty * daysLate d now) ++ ")"]
        ++ failEntries s.data r.sorted ∧
    (Submission.grade_against s r now).1.late = true) ∧
    (∀ n : Int, daysLate (n - 1) n = 1) ∧
    (∀ n : Int, daysLate (n - 90000) n = 2) ∧
    (∀ x n : Int, x ≤ n → daysLate x n = (n - x).tdiv 86400 + 1) := by
  have hpd : r.past_due now = true := by
    simp [Rubric.past_due, hd, hpast]
  refine ⟨⟨?_, ?_, ?_⟩, ?_, ?_, ?_⟩
  · simp [Submission.grade_against, hfin, hpd, hlate, Submission.penalty, hd,
      gradeLoop_grade, sub_sub]
  · simp [Submission.grade_against, hfin, hpd, hlate, Submission.penalty, hd, gradeLoop_failed]
  · simp [Submission.grade_against, hfin, hpd, hlate, Submission.penalty, hd, gradeLoop_late]
  · intro n
    have h : n - 1 - n = -1 := by ring
    rw [daysLate, h, show ((-1 : Int).tdiv 86400) = 0 from by decide]
    rfl
  · intro n
    have h : n - 90000 - n = -90000 := by ring
    rw [daysLate, h, show ((-90000 : Int).tdiv 86400) = -1 from by decide]
    rfl
  · intro x n hx
    have h1 : x - n = -(n - x) := by ring
    rw [daysLate, h1, Int.neg_tdiv, Int.natAbs_neg]
    rw [Int.natAbs_of_nonneg (Int.tdiv_nonneg (by omega) (by norm_num))]

/-- Witness for C4: deadline 99, graded at 100 (one second late), flat
penalty 5, per-day penalty 3: grade is -5 - 3 plus the criterion points. -/
theorem c4_witness :
    ({ exRubric with deadline := some 99, late_penalty := 5, daily_penalty := 3 } : Rubric).allow_late
        = true ∧
    (Submission.grade_against exSub
        { exRubric with deadline := some 99, late_penalty := 5, daily_penalty := 3 } 100).1.failed =
      exSub.failed ++
        ["Late submission (-" ++ toString (5 : Int) ++ ")",
         toString (daysLate 99 100) ++ " days late" ++ " (-" ++ toString ((3 : Int) * daysLate 99 100) ++ ")"]
        ++ failEntries exSub.data
            ({ exRubric with deadline := some 99, late_penalty := 5, daily_penalty := 3 } : Rubric).sorted ∧
    daysLate (100 - 1) 100 = 1 ∧
    daysLate (100 - 90000) 100 = 2 := by
  have h := c4_daily_penalty exSub
    { exRubric with deadline := some 99, late_penalty := 5, daily_penalty := 3 } 100 99
    (by decide) rfl (by decide) rfl
  exact ⟨rfl, h.1.2.1, h.2.1 100, h.2.2.1 100⟩

/-- C1 counterexample: grading the example rubric (criterion A passes,
criterion B fails, no deadlines) records the failing criterion's trail
entry as "B (-0)", not "B (+0)" as the claim states. -/
theorem c1_counterexample :
    (Submission.grade_against exSub exRubric 0).1.failed = ["B (-0)"] ∧
    (Submission.grade_against exSub exRubric 0).1.failed ≠ ["B (+0)"] := by
  constructor
  · decide
  · decide

/-- C1 (amended): in the criterion-evaluation phase (no deadlines
configured), every criterion whose test passes adds its worth to the grade
and appends an entry name (+worth) to the passed list, and every criterion
whose test fails leaves the grade unchanged and appends an entry
name (-0) to the failed list — failing never subtracts points. -/
theorem c1_criterion_phase (s : Submission) (r : Rubric) (now : Int)
    (hfin : r.final_deadline = none) (hd : r.deadline = none) :
    (Submission.grade_against s r now).1.grade = s.grade + passWorth s.data r.sorted ∧
    (Submission.grade_against s r now).1.passed = s.passed ++ passEntries s.data r.sorted ∧
    (Submission.grade_against s r now).1.failed = s.failed ++ failEntries s.data r.sorted := by
  have h1 : r.past_final_deadline now = false := by
    simp [Rubric.past_final_deadline, hfin]
  have h2 : r.past_due now = false := by
    simp [Rubric.past_due, hd]
  refine ⟨?_, ?_, ?_⟩
  · simp [Submission.grade_against, h1, h2, gradeLoop_grade]
  · simp [Submission.grade_against, h1, h2, gradeLoop_passed]
  · simp [Submission.grade_against, h1, h2, gradeLoop_failed]

/-- Witness for C1: the end-to-end scenario of the spec (criterion worth
10 passes, criterion worth 15 fails, no deadline): final grade 10, one
passed entry containing +10, one failed entry with the zero delta. -/
theorem c1_witness :
    exRubric.final_deadline = none ∧ exRubric.deadline = none ∧
    (Submission.grade_against exSub exRubric 0).1.grade
      = exSub.grade + passWorth exSub.data exRubric.sorted ∧
    (Submission.grade_against exSub exRubric 0).1.passed
      = exSub.passed ++ passEntries exSub.data exRubric.sorted ∧
    (Submission.grade_against exSub exRubric 0).1.grade = 10 ∧
    passEntries exSub.data exRubric.sorted = ["A (+10)"] := by
  have h := c1_criterion_phase exSub exRubric 0 rfl rfl
  exact ⟨rfl, rfl, h.1, h.2.1, by decide, by decide⟩

/-- C5 counterexample: grading a rubric whose single passed criterion has
worth -5 drives points() to 2 ^ 64 - 5 (the usize wrap of -5), not to the
passed-worth sum -5 the claim demands for negative worths. -/
theorem c5_counterexample :
    specPassedWorthSum (Submission.grade_against exSub exNegRubric 0).2 = -5 ∧
    Rubric.points (Submission.grade_against exSub exNegRubric 0).2 = 2 ^ 64 - 5 ∧
    ((Rubric.points (Submission.grade_against exSub exNegRubric 0).2 : Int)
      ≠ specPassedWorthSum (Submission.grade_against exSub exNegRubric 0).2) := by
  refine ⟨by decide, by decide, by decide⟩

/-- C5 (amended): total_points() is the sum of all criteria worths
regardless of status; points() is the sum of the worths of the Passed
criteria computed in usize arithmetic, i.e. congruent to the true sum
modulo 2 ^ 64 and equal to it whenever every worth is nonnegative and the
passed sum is below 2 ^ 64 (a negative passed worth wraps instead); and a
rubric whose statuses are all Untested has points() 0. -/
theorem c5_points (r : Rubric) :
    r.total_points = (r.criteria.map (fun c => c.worth)).sum ∧
    ((∀ c ∈ r.criteria, c.status = none) → r.points = 0) ∧
    ((r.points : Int) = specPassedWorthSum r % (2 : Int) ^ 64) ∧
    ((∀ c ∈ r.criteria, 0 ≤ c.worth) → specPassedWorthSum r < (2 : Int) ^ 64 →
      (r.points : Int) = specPassedWorthSum r) := by
  have hfold := pointsStep_fold r.criteria 0 (by norm_num)
  rw [Nat.cast_zero, zero_add] at hfold
  have hmain : (r.points : Int) = specPassedWorthSum r % (2 : Int) ^ 64 := by
    rw [Rubric.points, hfold, specPassedWorthSum]
  refine ⟨?_, ?_, hmain, ?_⟩
  · rw [Rubric.total_points, foldl_add_worth, zero_add]
  · intro hnone
    have hfil : r.criteria.filter (fun c => c.status = some true) = [] := by
      rw [List.filter_eq_nil_iff]
      intro c hc
      simp [hnone c hc]
    have hz : (r.points : Int) = 0 := by
      rw [hmain, specPassedWorthSum, hfil]
      simp
    exact_mod_cast hz
  · intro hnn hlt
    have hge : 0 ≤ specPassedWorthSum r := by
      apply List.sum_nonneg
      intro x hx
      rcases List.mem_map.mp hx with ⟨c, hc, rfl⟩
      exact hnn c (List.mem_of_mem_filter hc)
    rw [hmain, Int.emod_eq_of_lt hge hlt]

/-- Witness for C5: the example rubric before grading has points 0; after
grading, points agrees with the passed-worth sum 10 (all worths
nonnegative). -/
theorem c5_witness :
    exRubric.total_points = (exRubric.criteria.map (fun c => c.worth)).sum ∧
    exRubric.points = 0 ∧
    ((Rubric.points (Submission.grade_against exSub exRubric 0).2 : Int)
      = specPassedWorthSum (Submission.grade_against exSub exRubric 0).2) ∧
    specPassedWorthSum (Submission.grade_against exSub exRubric 0).2 = 10 := by
  refine ⟨(c5_points exRubric).1, (c5_points exRubric).2.1 (by decide), ?_, by decide⟩
  exact (c5_points (Submission.grade_against exSub exRubric 0).2).2.2.2 (by decide) (by decide)

/-- C6: the CSV codec for the data map is determined solely by the map's
contents: for any two association lists with the same entries (in any
order) and distinct keys, header() and as_csv() agree; concretely, the map
b to 2, a to 1 yields header a,b and csv 1,2, and a value containing a
comma is serialized with the comma replaced by a semicolon. -/
theorem c6_csv_determinism :
    (∀ l₁ l₂ : TestData, l₁.Perm l₂ → (l₁.map Prod.fst).Nodup →
      TestData.header l₁ = TestData.header l₂ ∧ TestData.as_csv l₁ = TestData.as_csv l₂) ∧
    TestData.header [("b", "2"), ("a", "1")] = "a,b" ∧
    TestData.as_csv [("b", "2"), ("a", "1")] = "1,2" ∧
    TestData.as_csv [("k", "x,y")] = "x;y" := by
  refine ⟨?_, by decide, by decide, by decide⟩
  intro l₁ l₂ hp hn
  have hs := sortByKey_eq_of_perm hp hn
  constructor
  · rw [TestData.header, TestData.header, hs]
  · rw [TestData.as_csv, TestData.as_csv, hs]

/-- Witness for C6: the two insertion orders of the same two-entry map
serialize identically. -/
theorem c6_witness :
    ([("b", "2"), ("a", "1")] : TestData).Perm [("a", "1"), ("b", "2")] ∧
    (([("b", "2"), ("a", "1")] : TestData).map Prod.fst).Nodup ∧
    TestData.header [("b", "2"), ("a", "1")] = TestData.header [("a", "1"), ("b", "2")] ∧
    TestData.as_csv [("b", "2"), ("a", "1")] = TestData.as_csv [("a", "1"), ("b", "2")] := by
  have h := c6_csv_determinism.1 [("b", "2"), ("a", "1")] [("a", "1"), ("b", "2")]
    (by decide) (by decide)
  exact ⟨by decide, by decide, h.1, h.2⟩

/-- C7: sorted() orders the criteria by ascending index and the sort is
stable (criteria of equal index keep their relative insertion order, here
expressed as: filtering to any one index value commutes with sorting);
grading visits criteria in exactly this sorted order, and in a late pass
that proceeds to grading the trail entries are appended with the
deadline-penalty entries preceding every per-criterion entry. -/
theorem c7_ordering :
    (∀ r : Rubric, r.sorted.Sorted idxLe) ∧
    (∀ (r : Rubric) (i : Int),
      r.sorted.filter (fun c => c.index = i) = r.criteria.filter (fun c => c.index = i)) ∧
    (∀ (s : Submission) (r : Rubric) (now d : Int),
      r.past_final_deadline now = false → r.deadline = some d → d < now → r.allow_late = true →
      (Submission.grade_against s r now).1.failed =
        s.failed ++
          ["Late submission (-" ++ toString r.late_penalty ++ ")",
           toString (daysLate d now) ++ " days late" ++ " (-"
             ++ toString (r.daily_penalty * daysLate d now) ++ ")"]
          ++ failEntries s.data r.sorted ∧
      (Submission.grade_against s r now).1.passed = s.passed ++ passEntries s.data r.sorted ∧
      (Submission.grade_against s r now).2.criteria =
        r.sorted.map (fun c => { c with status := some (c.test s.data) })) := by
  refine ⟨?_, ?_, ?_⟩
  · intro r
    exact List.sorted_insertionSort idxLe r.criteria
  · intro r i
    exact sorted_filter_index r.criteria i
  · intro s r now d hfin hd hpast hlate
    have hpd : r.past_due now = true := by
      simp [Rubric.past_due, hd, hpast]
    refine ⟨?_, ?_, ?_⟩
    · simp [Submission.grade_against, hfin, hpd, hlate, Submission.penalty, hd, gradeLoop_failed]
    · simp [Submission.grade_against, hfin, hpd, hlate, Submission.penalty, hd, gradeLoop_passed]
    · simp [Submission.grade_against, hfin, hpd, hlate, Submission.penalty, hd, gradeLoop_snd]

/-- Witness for C7: concrete sortedness, stability, and a late pass with
deadline 99 at time 100 whose failed trail starts with the two deadline
entries. -/
theorem c7_witness :
    exRubric.sorted.Sorted idxLe ∧
    exRubric.sorted.filter (fun c => c.index = 1) = exRubric.criteria.filter (fun c => c.index = 1) ∧
    (Submission.grade_against exSub { exRubric with deadline := some 99, late_penalty := 5 } 100).1.failed =
      exSub.failed ++
        ["Late submission (-" ++ toString (5 : Int) ++ ")",
         toString (daysLate 99 100) ++ " days late" ++ " (-"
           ++ toString ((0 : Int) * daysLate 99 100) ++ ")"]
        ++ failEntries exSub.data ({ exRubric with deadline := some 99, late_penalty := 5 } : Rubric).sorted := by
  refine ⟨c7_ordering.1 exRubric, c7_ordering.2.1 exRubric 1, ?_⟩
  exact (c7_ordering.2.2 exSub { exRubric with deadline := some 99, late_penalty := 5 } 100 99
    (by decide) rfl (by decide) rfl).1

/-- C8: the results-file header is written exactly once and only when the
file is empty at the moment it is checked: ResultsFile::new appends the
header iff the length is 0 at open time, the accept path writes the
header before the record iff the length is 0, and any nonempty run of
accepted submissions over an initially empty file yields exactly one
header line followed by the record lines. -/
theorem c8_header_once :
    (∀ (f : FileState) (h : String), f.lengthBytes = 0 →
      (ResultsFile.new f h).records = f.records ++ [h]) ∧
    (∀ (f : FileState) (h : String), f.lengthBytes ≠ 0 → ResultsFile.new f h = f) ∧
    (∀ (f : FileState) (sub : Submission), f.lengthBytes = 0 →
      (accept_submission f sub).records = f.records ++ [sub.header, sub.as_csv]) ∧
    (∀ (f : FileState) (sub : Submission), f.lengthBytes ≠ 0 →
      (accept_submission f sub).records = f.records ++ [sub.as_csv]) ∧
    (∀ (sub : Submission) (rest : List Submission),
      ((sub :: rest).foldl accept_submission ⟨[]⟩).records
        = sub.header :: (sub :: rest).map Submission.as_csv) := by
  refine ⟨?_, ?_, ?_, ?_, ?_⟩
  · intro f h hz
    simp [ResultsFile.new, hz, FileState.append]
  · intro f h hz
    simp [ResultsFile.new, hz]
  · intro f sub hz
    simp [accept_submission, hz, FileState.append]
  · intro f sub hz
    simp [accept_submission, hz, FileState.append]
  · intro sub rest
    rw [List.foldl_cons]
    have h0 : (FileState.mk [] : FileState).lengthBytes = 0 := rfl
    have h1 : (accept_submission ⟨[]⟩ sub).records = [sub.header, sub.as_csv] := by
      simp [accept_submission, FileState.append, FileState.lengthBytes]
    have h2 : (accept_submission ⟨[]⟩ sub).records ≠ [] := by
      rw [h1]; simp
    rw [foldl_accept_of_nonempty rest _ h2, h1]
    simp

/-- Witness for C8: an empty file gets the header on open, and a run of
two submissions over an empty file yields one header then two records. -/
theorem c8_witness :
    (FileState.mk []).lengthBytes = 0 ∧
    (ResultsFile.new ⟨[]⟩ "x,y").records = [] ++ ["x,y"] ∧
    (([exSub, { exSub with grade := 7 }].foldl accept_submission ⟨[]⟩).records
      = exSub.header :: [exSub, { exSub with grade := 7 }].map Submission.as_csv) := by
  refine ⟨rfl, c8_header_once.1 ⟨[]⟩ "x,y" rfl, ?_⟩
  exact c8_header_once.2.2.2.2 exSub [{ exSub with grade := 7 }]

/-- C9: building a Criterion without attaching a test installs the default
always-false predicate: test_with_data returns false and sets the status
to Some(false) for every input, and grading a rubric none of whose
criteria can pass leaves the grade and the passed trail unchanged and
marks every criterion Failed instead of reporting an error. -/
theorem c9_default_test_false :
    (∀ (b : CriterionBuilder) (data : TestData), b.test = none →
      (b.build.test_with_data data).1 = false ∧
      (b.build.test_with_data data).2.status = some false) ∧
    (∀ (s : Submission) (r : Rubric) (now : Int),
      r.final_deadline = none → r.deadline = none →
      (∀ c ∈ r.criteria, ∀ d : TestData, c.test d = false) →
      (Submission.grade_against s r now).1.grade = s.grade ∧
      (Submission.grade_against s r now).1.passed = s.passed ∧
      (∀ c ∈ (Submission.grade_against s r now).2.criteria, c.status = some false)) := by
  constructor
  · intro b data htest
    constructor
    · simp [CriterionBuilder.build, Criterion.test_with_data, htest]
    · simp [CriterionBuilder.build, Criterion.test_with_data, htest]
  · intro s r now hfin hd htests
    have h1 : r.past_final_deadline now = false := by
      simp [Rubric.past_final_deadline, hfin]
    have h2 : r.past_due now = false := by
      simp [Rubric.past_due, hd]
    have hsortmem : ∀ c ∈ r.sorted, ∀ d : TestData, c.test d = false := by
      intro c hc
      exact htests c ((List.mem_insertionSort idxLe).mp hc)
    have hfil : r.sorted.filter (fun c => c.test s.data) = [] := by
      rw [List.filter_eq_nil_iff]
      intro c hc
      simp [hsortmem c hc s.data]
    refine ⟨?_, ?_, ?_⟩
    · simp [Submission.grade_against, h1, h2, gradeLoop_grade, passWorth, hfil]
    · simp [Submission.grade_against, h1, h2, gradeLoop_passed, passEntries, hfil]
    · intro c hc
      simp only [Submission.grade_against, h1, h2, Bool.false_eq_true, if_false,
        gradeLoop_snd] at hc
      rcases List.mem_map.mp hc with ⟨c₀, hc₀, rfl⟩
      simp [hsortmem c₀ hc₀ s.data]

/-- Witness for C9: a criterion built from the builder with no test
attached fails on concrete data, and grading the one-criterion unattached
rubric leaves the grade at 0 and sets the status to Some(false). -/
theorem c9_witness :
    (CriterionBuilder.new "My Crit").test = none ∧
    ((CriterionBuilder.new "My Crit").build.test_with_data [("key", "value")]).1 = false ∧
    ((CriterionBuilder.new "My Crit").build.test_with_data [("key", "value")]).2.status
      = some false ∧
    (Submission.grade_against exSub exUnattachedRubric 0).1.grade = exSub.grade ∧
    (∀ c ∈ (Submission.grade_against exSub exUnattachedRubric 0).2.criteria,
      c.status = some false) := by
  have h1 := c9_default_test_false.1 (CriterionBuilder.new "My Crit") [("key", "value")] rfl
  have h2 := c9_default_test_false.2 exSub exUnattachedRubric 0 rfl rfl
    (by
      intro c hc d
      have hc' : c = (CriterionBuilder.new "My Crit").build := by
        simpa [exUnattachedRubric] using hc
      rw [hc']
      rfl)
  exact ⟨rfl, h1.1, h1.2, h2.1, h2.2.2⟩

/-- The match on the criterion loop's result in the flat grade_against
always lands in the some branch. -/
theorem flatGradeLoop_match_isSome (s : FlatSubmission) (l : List Criterion) (r : Rubric) :
    (match flatGradeLoop s l with
      | none => (none : Option (FlatSubmission × Rubric))
      | some p => some (p.1, { r with criteria := p.2 })).isSome = true := by
  rcases h : flatGradeLoop s l with _ | p
  · have hk := flatGradeLoop_isSome l s
    rw [h] at hk
    exact absurd hk (by simp)
  · rfl

/-- C10: after test_with_data runs, the criterion's status is always Some,
so neither the unwrap inside test_with_data nor the status unwrap in the
flat grade_against criterion loop can panic: the Option-modelled
translations return some for every criterion, submission and rubric. -/
theorem c10_unwrap_never_panics :
    (∀ (c : Criterion) (data : TestData),
      c.test_with_data_opt data = some (c.test_with_data data)) ∧
    (∀ (s : FlatSubmission) (r : Rubric) (now : Int),
      (FlatSubmission.grade_against s r now).isSome = true) := by
  constructor
  · intro c data
    rfl
  · intro s r now
    rw [FlatSubmission.grade_against]
    by_cases hpd : r.past_due now = true
    · by_cases hal : r.allow_late = true
      · have hneg : (!r.allow_late) = false := by rw [hal]; rfl
        simp only [hpd, hneg, Bool.false_eq_true, if_false, if_true]
        exact flatGradeLoop_match_isSome _ r.sorted r
      · simp only [hpd, eq_self_iff_true, if_true]
        have hal' : r.allow_late = false := by
          cases h : r.allow_late
          · rfl
          · exact absurd h hal
        simp [hal']
    · simp only [hpd, Bool.false_eq_true, if_false]
      exact flatGradeLoop_match_isSome s r.sorted r
